import Mathlib

/-!
Verification of the quiz-game repository (rowenahassan/quiz-game).

Shallow embedding of the core of the program:
* `src/js/quiz.js`  — the `Quiz` class (session state, fetch, score,
  leaderboard persistence),
* `src/js/question.js` — the `Question` class (per-round state: answer
  lock-in, timer, entity decoding, Fisher–Yates shuffle),
* `src/js/index.js` — form validation and quiz start.

JavaScript numbers only ever hold small integers here, so they are embedded
as `Nat`/`Int`.  The browser-supplied collaborators (DOMParser, JSON.parse,
localStorage, Math.random, setInterval) are modelled as explicit inputs:
random draws as an oracle `Nat → Nat`, storage as the parsed value it holds,
and the DOMParser entity decoder as a function modelled from the spec.
-/

namespace QuizGame

/-! ## Per-round answer/timer state (src/js/question.js)

One `Question` round owns `answered` (starts `false`), the running interval
timer and a reference to the session score (`this.quiz.score`).  The two
mutating entry points are `checkAnswer` (user selection, lines 212–235) and
`handleTimeUp` (timeout, lines 191–210); both start with
`if (this.answered) return;`. -/

/-- The part of a `Question` round's state that `checkAnswer` and
`handleTimeUp` read or write: the correct answer (fixed for the round), the
`answered` flag, whether the interval timer is still installed
(`timerInterval !== null`), and the session score `this.quiz.score`. -/
structure RoundState where
  correctAnswer : String
  answered : Bool
  timerOn : Bool
  score : Nat
  deriving Repr, DecidableEq

/-- `Question.checkAnswer` (question.js lines 212–235): guard on `answered`,
then set `answered = true`, stop the timer, compare the selected answer to
the correct one case-insensitively and call `quiz.incrementScore()` on a
match.  The DOM highlighting and animation have no further state effect. -/
def checkAnswer (s : RoundState) (choice : String) : RoundState :=
  if s.answered then s
  else
    { s with
      answered := true
      timerOn := false
      score := if choice.toLower = s.correctAnswer.toLower then s.score + 1 else s.score }

/-- `Question.handleTimeUp` (question.js lines 191–210): guard on `answered`,
then set `answered = true` and reveal the correct answer.  It touches neither
the timer (its caller in `startTimer` stops it) nor the score. -/
def handleTimeUp (s : RoundState) : RoundState :=
  if s.answered then s else { s with answered := true }

/-- An event delivered to one round: a user selection carrying the chosen
answer string, or the timeout tick reaching zero. -/
inductive RoundEvent where
  | select (choice : String)
  | timeUp
  deriving Repr, DecidableEq

/-- Dispatch one event into the round's state. -/
def roundStep (s : RoundState) : RoundEvent → RoundState
  | .select choice => checkAnswer s choice
  | .timeUp => handleTimeUp s

/-- Run a whole interleaving of events over a round. -/
def roundRun (s : RoundState) (evs : List RoundEvent) : RoundState :=
  evs.foldl roundStep s

theorem roundStep_of_answered (s : RoundState) (e : RoundEvent)
    (h : s.answered = true) : roundStep s e = s := by
  cases e <;> simp [roundStep, checkAnswer, handleTimeUp, h]

theorem roundRun_of_answered (s : RoundState) (evs : List RoundEvent)
    (h : s.answered = true) : roundRun s evs = s := by
  induction evs with
  | nil => rfl
  | cons e rest ih =>
      simp only [roundRun, List.foldl_cons] at *
      rw [roundStep_of_answered s e h, ih]

theorem roundStep_answered (s : RoundState) (e : RoundEvent) :
    (roundStep s e).answered = true := by
  cases e <;> simp only [roundStep, checkAnswer, handleTimeUp] <;>
    split <;> simp_all

theorem roundStep_score_le (s : RoundState) (e : RoundEvent) :
    s.score ≤ (roundStep s e).score ∧ (roundStep s e).score ≤ s.score + 1 := by
  cases e <;> simp only [roundStep, checkAnswer, handleTimeUp] <;>
    split <;> (try split) <;> simp_all

/-- C1.  For every round state with `answered = false` and every nonempty
interleaving of answer selections (`checkAnswer`) and timeout ticks
(`handleTimeUp`): the `answered` flag is `true` after every nonempty prefix
(so it flips from `false` to `true` at the first event and never changes
again, i.e. exactly once); the session score grows by at most 1 and never
decreases; when the round resolves as timed out (the first — hence the
effective — event is the timeout) the score grows by exactly 0; and any
invocation of `checkAnswer` or `handleTimeUp` on an already-answered round
is a strict no-op, leaving score and timer untouched. -/
theorem round_mutual_exclusion (s0 : RoundState) (evs : List RoundEvent)
    (h0 : s0.answered = false) (hne : evs ≠ []) :
    (∀ k, 1 ≤ k → (roundRun s0 (evs.take k)).answered = true)
    ∧ s0.score ≤ (roundRun s0 evs).score
    ∧ (roundRun s0 evs).score ≤ s0.score + 1
    ∧ (evs.head hne = RoundEvent.timeUp → (roundRun s0 evs).score = s0.score)
    ∧ (∀ s : RoundState, ∀ e : RoundEvent, s.answered = true → roundStep s e = s) := by
  obtain ⟨e, rest, rfl⟩ := List.exists_cons_of_ne_nil hne
  have hstep : (roundStep s0 e).answered = true := roundStep_answered s0 e
  have hrun : ∀ l : List RoundEvent, roundRun s0 (e :: l) = roundStep s0 e := by
    intro l
    simp only [roundRun, List.foldl_cons]
    exact roundRun_of_answered _ _ hstep
  refine ⟨?_, ?_, ?_, ?_, roundStep_of_answered⟩
  · intro k hk
    obtain ⟨k', rfl⟩ := Nat.exists_eq_add_of_le hk
    rw [List.take_cons (show 0 < 1 + k' by omega)]
    rw [hrun]
    exact hstep
  · rw [hrun]
    exact (roundStep_score_le s0 e).1
  · rw [hrun]
    exact (roundStep_score_le s0 e).2
  · intro hhead
    simp only [List.head_cons] at hhead
    subst hhead
    rw [hrun]
    simp [roundStep, handleTimeUp, h0]

/-- Witness for C1 at a concrete round and interleaving: the timeout fires
first, then a (correct) selection arrives late; the round resolves timed
out, the score stays 0 and `answered` ends `true`. -/
theorem round_mutual_exclusion_witness :
    (roundRun ⟨"Paris", false, true, 0⟩
        [RoundEvent.timeUp, RoundEvent.select "Paris"]).score = 0 :=
  (round_mutual_exclusion ⟨"Paris", false, true, 0⟩
    [RoundEvent.timeUp, RoundEvent.select "Paris"] rfl (by simp)).2.2.2.1 rfl

/-! ## Quiz session state (src/js/quiz.js)

The `Quiz` class holds configuration, fetched questions, the score and the
progress pointer.  A raw question is an Open Trivia DB record as delivered
by the API (HTML-entity-escaped text fields). -/

/-- A raw question record from the API payload (`data.results[i]`), with the
fields the program reads: `question`, `category`, `correct_answer`,
`incorrect_answers`. -/
structure RawQuestion where
  question : String
  category : String
  correct_answer : String
  incorrect_answers : List String
  deriving Repr, DecidableEq

/-- The `Quiz` instance state (quiz.js constructor, lines 34–43): form
configuration plus `score = 0`, `questions = []`,
`currentQuestionIndex = 0`. -/
structure Quiz where
  playerName : String
  category : String
  difficulty : String
  numberOfQuestions : Nat
  score : Nat
  questions : List RawQuestion
  currentQuestionIndex : Nat
  deriving Repr, DecidableEq

/-- `Quiz` constructor (quiz.js lines 34–43). -/
def Quiz.create (playerName category difficulty : String)
    (numberOfQuestions : Nat) : Quiz :=
  { playerName := playerName
    category := category
    difficulty := difficulty
    numberOfQuestions := numberOfQuestions
    score := 0
    questions := []
    currentQuestionIndex := 0 }

/-- `Quiz.incrementScore` (quiz.js lines 69–71): `this.score += 1`. -/
def Quiz.incrementScore (q : Quiz) : Quiz :=
  { q with score := q.score + 1 }

/-- `Quiz.isComplete` (quiz.js lines 82–84):
`currentQuestionIndex >= questions.length`. -/
def Quiz.isComplete (q : Quiz) : Bool :=
  q.questions.length ≤ q.currentQuestionIndex

/-- `Quiz.nextQuestion` (quiz.js lines 77–80): increment the index, return
the new state together with `!isComplete()`. -/
def Quiz.nextQuestion (q : Quiz) : Quiz × Bool :=
  let q' := { q with currentQuestionIndex := q.currentQuestionIndex + 1 }
  (q', !q'.isComplete)

/-- `Quiz.getCurrentQuestion` (quiz.js lines 73–75):
`questions[currentQuestionIndex] || null`. -/
def Quiz.getCurrentQuestion (q : Quiz) : Option RawQuestion :=
  q.questions.get? q.currentQuestionIndex

/-- One protocol-following round against the session: `incrementScore` is
called at most once (`scored` says whether it was), then `nextQuestion`
advances.  This is exactly what `Question.checkAnswer` +
`Question.getNextQuestion` perform on the `Quiz` per round. -/
def Quiz.playRound (q : Quiz) (scored : Bool) : Quiz :=
  ((if scored then q.incrementScore else q).nextQuestion).1

/-- Run a sequence of protocol-following rounds. -/
def Quiz.runRounds (q : Quiz) (rounds : List Bool) : Quiz :=
  rounds.foldl Quiz.playRound q

theorem runRounds_questions (q : Quiz) (rounds : List Bool) :
    (q.runRounds rounds).questions = q.questions := by
  induction rounds generalizing q with
  | nil => rfl
  | cons r rest ih =>
      simp only [Quiz.runRounds, List.foldl_cons] at *
      rw [ih]
      cases r <;> rfl

theorem runRounds_index (q : Quiz) (rounds : List Bool) :
    (q.runRounds rounds).currentQuestionIndex =
      q.currentQuestionIndex + rounds.length := by
  induction rounds generalizing q with
  | nil => rfl
  | cons r rest ih =>
      simp only [Quiz.runRounds, List.foldl_cons] at *
      rw [ih]
      cases r <;>
        simp [Quiz.playRound, Quiz.nextQuestion, Quiz.incrementScore] <;> omega

theorem runRounds_score (q : Quiz) (rounds : List Bool) :
    q.score ≤ (q.runRounds rounds).score
    ∧ (q.runRounds rounds).score ≤ q.score + rounds.length := by
  induction rounds generalizing q with
  | nil => exact ⟨Nat.le_refl _, by simp [Quiz.runRounds]⟩
  | cons r rest ih =>
      simp only [Quiz.runRounds, List.foldl_cons] at *
      have h := ih (q.playRound r)
      have hr : q.score ≤ (q.playRound r).score
          ∧ (q.playRound r).score ≤ q.score + 1 := by
        cases r <;>
          simp [Quiz.playRound, Quiz.nextQuestion, Quiz.incrementScore]
      simp only [List.length_cons]
      omega

theorem runRounds_take_le (q : Quiz) (rounds : List Bool) (k k' : Nat)
    (hk : k ≤ k') :
    (q.runRounds (rounds.take k)).currentQuestionIndex ≤
        (q.runRounds (rounds.take k')).currentQuestionIndex
    ∧ (q.runRounds (rounds.take k)).score ≤ (q.runRounds (rounds.take k')).score := by
  have hsplit : rounds.take k' = rounds.take k ++ (rounds.drop k).take (k' - k) := by
    rw [← List.take_add]
    congr 1
    omega
  have hfold : q.runRounds (rounds.take k') =
      (q.runRounds (rounds.take k)).runRounds ((rounds.drop k).take (k' - k)) := by
    rw [hsplit]
    simp [Quiz.runRounds, List.foldl_append]
  constructor
  · simp only [hfold, runRounds_index]
    omega
  · rw [hfold]
    exact (runRounds_score _ _).1

/-- C2.  For every session and every protocol-following sequence of rounds
(each round calls `incrementScore` at most once then `nextQuestion` once,
and no round starts on a complete quiz — encoded as
`currentQuestionIndex + #rounds ≤ #questions`): after every prefix of the
sequence, `currentQuestionIndex ≤ questions.length` and `score ≤
currentQuestionIndex` hold (the lower bounds `0 ≤ _` are inherent in `Nat`),
and both `currentQuestionIndex` and `score` are monotonically
non-decreasing along the sequence. -/
theorem session_invariants (q0 : Quiz) (rounds : List Bool)
    (hroom : q0.currentQuestionIndex + rounds.length ≤ q0.questions.length)
    (hsc : q0.score ≤ q0.currentQuestionIndex) :
    (∀ k, (q0.runRounds (rounds.take k)).currentQuestionIndex ≤
        (q0.runRounds (rounds.take k)).questions.length)
    ∧ (∀ k, (q0.runRounds (rounds.take k)).score ≤
        (q0.runRounds (rounds.take k)).currentQuestionIndex)
    ∧ (∀ k k', k ≤ k' →
        (q0.runRounds (rounds.take k)).currentQuestionIndex ≤
            (q0.runRounds (rounds.take k')).currentQuestionIndex
        ∧ (q0.runRounds (rounds.take k)).score ≤
            (q0.runRounds (rounds.take k')).score) := by
  refine ⟨?_, ?_, fun k k' => runRounds_take_le q0 rounds k k'⟩
  · intro k
    rw [runRounds_questions, runRounds_index]
    have : (List.take k rounds).length ≤ rounds.length := by
      rw [List.length_take]
      omega
    omega
  · intro k
    rw [runRounds_index]
    have := (runRounds_score q0 (rounds.take k)).2
    omega

/-- Witness for C2 at a concrete session: three questions, rounds scoring
1, 0, 1 points; after the full run the index is 3 and the score 2. -/
theorem session_invariants_witness :
    (Quiz.runRounds
        ⟨"p", "", "easy", 3, 0,
          [⟨"q1", "c", "a", []⟩, ⟨"q2", "c", "a", []⟩, ⟨"q3", "c", "a", []⟩], 0⟩
        ([true, false, true].take 3)).score ≤
      (Quiz.runRounds
        ⟨"p", "", "easy", 3, 0,
          [⟨"q1", "c", "a", []⟩, ⟨"q2", "c", "a", []⟩, ⟨"q3", "c", "a", []⟩], 0⟩
        ([true, false, true].take 3)).currentQuestionIndex :=
  (session_invariants
      ⟨"p", "", "easy", 3, 0,
        [⟨"q1", "c", "a", []⟩, ⟨"q2", "c", "a", []⟩, ⟨"q3", "c", "a", []⟩], 0⟩
      [true, false, true] (by decide) (by decide)).2.1 3

/-! ## Fetching questions (quiz.js `getQuestions`, lines 55–67)

The browser `fetch` is external; its outcome is an explicit input: either the
promise rejects (transport failure) or an HTTP response arrives with an `ok`
flag and a parsed JSON body `{response_code, results}`. -/

/-- The parsed body of an Open Trivia DB response. -/
structure ApiResponse where
  response_code : Int
  results : List RawQuestion
  deriving Repr, DecidableEq

/-- Outcome of the `fetch` call: rejection, or a response with its HTTP
success flag and body. -/
inductive FetchOutcome where
  | transportFailure
  | response (ok : Bool) (body : ApiResponse)
  deriving Repr, DecidableEq

/-- The error taxonomy of the spec for the fetch path: `FetchError` covers a
rejected transport or a non-success HTTP status (the code's
`"Network response was not ok"` throw), `NoDataError` the
`"No questions available"` throw on `response_code !== 0`. -/
inductive QuizError where
  | fetchError (msg : String)
  | noDataError (msg : String)
  deriving Repr, DecidableEq

/-- `Quiz.getQuestions` (quiz.js lines 55–67).  Returns the session state
after the call together with the thrown error or the returned list; every
`throw` happens before `this.questions = data.results`, so on the error
paths the state is the unmodified receiver. -/
def Quiz.getQuestions (q : Quiz) (outcome : FetchOutcome) :
    Quiz × Except QuizError (List RawQuestion) :=
  match outcome with
  | .transportFailure => (q, .error (.fetchError "fetch rejected"))
  | .response ok body =>
      if !ok then (q, .error (.fetchError "Network response was not ok"))
      else if body.response_code ≠ 0 then
        (q, .error (.noDataError "No questions available"))
      else ({ q with questions := body.results }, .ok body.results)

/-- C3.  `getQuestions` fails with a `FetchError` on transport failure and on
a non-success HTTP status, fails with a `NoDataError` when the payload's
`response_code` is nonzero, and on every failure path leaves the session
completely unchanged — in particular a session with empty `questions` still
has empty `questions`, so a failed fetch never leaves a partially populated
session. -/
theorem getQuestions_error_paths (q : Quiz) (outcome : FetchOutcome) :
    ((q.getQuestions .transportFailure).2 =
        .error (.fetchError "fetch rejected"))
    ∧ (∀ body : ApiResponse, (q.getQuestions (.response false body)).2 =
        .error (.fetchError "Network response was not ok"))
    ∧ (∀ body : ApiResponse, body.response_code ≠ 0 →
        (q.getQuestions (.response true body)).2 =
          .error (.noDataError "No questions available"))
    ∧ (∀ err : QuizError, (q.getQuestions outcome).2 = .error err →
        (q.getQuestions outcome).1 = q)
    ∧ (∀ err : QuizError, q.questions = [] →
        (q.getQuestions outcome).2 = .error err →
        (q.getQuestions outcome).1.questions = []) := by
  refine ⟨rfl, fun body => rfl, ?_, ?_, ?_⟩
  · intro body hc
    simp [Quiz.getQuestions, hc]
  · intro err herr
    cases outcome with
    | transportFailure => rfl
    | response ok body =>
        cases ok with
        | false => rfl
        | true =>
            by_cases hc : body.response_code = 0
            · simp [Quiz.getQuestions, hc] at herr
            · simp [Quiz.getQuestions, hc]
  · intro err hq herr
    cases outcome with
    | transportFailure => exact hq
    | response ok body =>
        cases ok with
        | false => exact hq
        | true =>
            by_cases hc : body.response_code = 0
            · simp [Quiz.getQuestions, hc] at herr
            · simpa [Quiz.getQuestions, hc] using hq

/-- Witness for C3 at a concrete session and payload: an HTTP-successful
response whose `response_code` is 1 throws `NoDataError` and leaves the
fresh session's `questions` empty. -/
theorem getQuestions_error_paths_witness :
    ((Quiz.create "p" "9" "easy" 5).getQuestions
        (.response true ⟨1, [⟨"q", "c", "a", ["b"]⟩]⟩)).2 =
      .error (.noDataError "No questions available")
    ∧ ((Quiz.create "p" "9" "easy" 5).getQuestions
        (.response true ⟨1, [⟨"q", "c", "a", ["b"]⟩]⟩)).1.questions = [] :=
  ⟨(getQuestions_error_paths (Quiz.create "p" "9" "easy" 5)
      (.response true ⟨1, [⟨"q", "c", "a", ["b"]⟩]⟩)).2.2.1
      ⟨1, [⟨"q", "c", "a", ["b"]⟩]⟩ (by decide),
    (getQuestions_error_paths (Quiz.create "p" "9" "easy" 5)
      (.response true ⟨1, [⟨"q", "c", "a", ["b"]⟩]⟩)).2.2.2.2
      (.noDataError "No questions available") rfl
      ((getQuestions_error_paths (Quiz.create "p" "9" "easy" 5)
        (.response true ⟨1, [⟨"q", "c", "a", ["b"]⟩]⟩)).2.2.1
        ⟨1, [⟨"q", "c", "a", ["b"]⟩]⟩ (by decide))⟩

/-! ## Entity decoding and round construction (src/js/question.js) -/

/-- Modelled from the spec: `Question.decodeHtml` (question.js lines 37–40)
delegates to the browser's `DOMParser`, which is not part of the repository;
the spec (§9) pins the decoder down to the fixed entity set actually emitted
by the question source — `&amp;`, `&quot;`, `&#039;`, `&lt;`, `&gt;` — so it
is modelled as a left-to-right decoder for exactly those sequences. -/
def decodeChars : List Char → List Char
  | [] => []
  | '&' :: 'a' :: 'm' :: 'p' :: ';' :: rest => '&' :: decodeChars rest
  | '&' :: 'q' :: 'u' :: 'o' :: 't' :: ';' :: rest => '"' :: decodeChars rest
  | '&' :: '#' :: '0' :: '3' :: '9' :: ';' :: rest => Char.ofNat 39 :: decodeChars rest
  | '&' :: 'l' :: 't' :: ';' :: rest => '<' :: decodeChars rest
  | '&' :: 'g' :: 't' :: ';' :: rest => '>' :: decodeChars rest
  | c :: rest => c :: decodeChars rest

/-- `decodeHtml` on strings: decode the character sequence. -/
def decodeHtml (s : String) : String :=
  String.mk (decodeChars s.data)

/-- Swap the entries at positions `i` and `j` of a list; out-of-range
positions leave the list unchanged.  This is the
`[answers[i], answers[j]] = [answers[j], answers[i]]` destructuring swap of
`shuffleAnswers` (question.js line 47). -/
def listSwap (l : List String) (i j : Nat) : List String :=
  match l.get? i, l.get? j with
  | some x, some y => (l.set i y).set j x
  | _, _ => l

/-- The Fisher–Yates loop of `shuffleAnswers` (question.js lines 45–48),
counting `i` down to 1; the random draw at step `i` is
`Math.floor(Math.random() * (i + 1))`, an arbitrary index in `[0, i]`,
modelled by an oracle `js` reduced mod `i + 1`. -/
def fyLoop (js : Nat → Nat) : Nat → List String → List String
  | 0, a => a
  | i + 1, a => fyLoop js i (listSwap a (i + 1) (js (i + 1) % (i + 2)))

/-- `Question.shuffleAnswers` (question.js lines 42–51):
`[...wrongAnswers, correctAnswer]` shuffled in place by Fisher–Yates. -/
def shuffleAnswers (wrongAnswers : List String) (correctAnswer : String)
    (js : Nat → Nat) : List String :=
  let answers := wrongAnswers ++ [correctAnswer]
  fyLoop js (answers.length - 1) answers

/-- The per-round data the `Question` constructor computes (question.js
lines 13–35): decoded text fields, the shuffled answers, the `answered`
flag and the 15-second timer. -/
structure QuestionRound where
  question : String
  correctAnswer : String
  category : String
  wrongAnswers : List String
  allAnswers : List String
  answered : Bool
  timeRemaining : Nat
  deriving Repr, DecidableEq

/-- The `Question` constructor (question.js lines 13–35) applied to the raw
record returned by `quiz.getCurrentQuestion()`, with the random oracle for
the shuffle. -/
def mkQuestion (raw : RawQuestion) (js : Nat → Nat) : QuestionRound :=
  { question := decodeHtml raw.question
    correctAnswer := decodeHtml raw.correct_answer
    category := decodeHtml raw.category
    wrongAnswers := raw.incorrect_answers.map decodeHtml
    allAnswers := shuffleAnswers (raw.incorrect_answers.map decodeHtml)
      (decodeHtml raw.correct_answer) js
    answered := false
    timeRemaining := 15 }

theorem swap_head_perm (t : List String) (m : Nat) (h : m < t.length)
    (b : String) : (b :: t).Perm (t.get ⟨m, h⟩ :: t.set m b) := by
  induction t generalizing m with
  | nil => simp at h
  | cons c t' ih =>
      cases m with
      | zero => simpa using List.Perm.swap c b t'
      | succ m' =>
          have hm : m' < t'.length := by simpa using h
          have p1 : (b :: c :: t').Perm (c :: b :: t') := List.Perm.swap c b t'
          have p2 : (c :: b :: t').Perm (c :: t'.get ⟨m', hm⟩ :: t'.set m' b) :=
            (ih m' hm).cons c
          have p3 : (c :: t'.get ⟨m', hm⟩ :: t'.set m' b).Perm
              (t'.get ⟨m', hm⟩ :: c :: t'.set m' b) := List.Perm.swap _ c _
          simpa using (p1.trans p2).trans p3

theorem set_set_perm (l : List String) (i j : Nat) (hi : i < l.length)
    (hj : j < l.length) :
    ((l.set i (l.get ⟨j, hj⟩)).set j (l.get ⟨i, hi⟩)).Perm l := by
  induction l generalizing i j with
  | nil => simp at hi
  | cons a t ih =>
      cases i with
      | zero =>
          cases j with
          | zero => simp
          | succ k =>
              have hk : k < t.length := by simpa using hj
              simpa using (swap_head_perm t k hk a).symm
      | succ m =>
          have hm : m < t.length := by simpa using hi
          cases j with
          | zero => simpa using (swap_head_perm t m hm a).symm
          | succ k =>
              have hk : k < t.length := by simpa using hj
              simpa using (ih m k hm hk).cons a

theorem listSwap_perm (l : List String) (i j : Nat) :
    (listSwap l i j).Perm l := by
  unfold listSwap
  cases h1 : l.get? i with
  | none => exact List.Perm.refl l
  | some x =>
      cases h2 : l.get? j with
      | none => exact List.Perm.refl l
      | some y =>
          have hi : i < l.length := List.get?_eq_some.mp h1 |>.1
          have hj : j < l.length := List.get?_eq_some.mp h2 |>.1
          have hx : l.get ⟨i, hi⟩ = x := (List.get?_eq_some.mp h1).2
          have hy : l.get ⟨j, hj⟩ = y := (List.get?_eq_some.mp h2).2
          rw [← hx, ← hy]
          exact set_set_perm l i j hi hj

theorem fyLoop_perm (js : Nat → Nat) (i : Nat) (a : List String) :
    (fyLoop js i a).Perm a := by
  induction i generalizing a with
  | zero => exact List.Perm.refl a
  | succ i' ih =>
      exact (ih _).trans (listSwap_perm a (i' + 1) (js (i' + 1) % (i' + 2)))

/-- C9.  For every question (any list of distractors plus the correct
answer) and every sequence of random draws, `shuffleAnswers` returns a
permutation of the multiset `{correctAnswer} ∪ distractors`: the same
strings with the same multiplicities, nothing added, removed or duplicated.
In the program the result is computed once, in the `Question` constructor
(`this.allAnswers = this.shuffleAnswers()`), reflected here by
`(mkQuestion raw js).allAnswers` being exactly this value. -/
theorem shuffleAnswers_perm (wrongAnswers : List String)
    (correctAnswer : String) (js : Nat → Nat) (raw : RawQuestion) :
    (shuffleAnswers wrongAnswers correctAnswer js).Perm
        (wrongAnswers ++ [correctAnswer])
    ∧ (∀ s : String, (shuffleAnswers wrongAnswers correctAnswer js).count s =
        (wrongAnswers ++ [correctAnswer]).count s)
    ∧ (mkQuestion raw js).allAnswers =
        shuffleAnswers (raw.incorrect_answers.map decodeHtml)
          (decodeHtml raw.correct_answer) js := by
  have hperm : (shuffleAnswers wrongAnswers correctAnswer js).Perm
      (wrongAnswers ++ [correctAnswer]) := fyLoop_perm js _ _
  exact ⟨hperm, fun s => hperm.count_eq s, rfl⟩

/-- C4, counterexample.  `getQuestions` does NOT store decoded text: on a
successful fetch it stores `data.results` verbatim (quiz.js line 65), so a
raw record whose `correct_answer` is `"Rock &amp; Roll"` is stored with the
`&amp;` still escaped, not as `"Rock & Roll"` as the claim requires of the
stored fields. -/
theorem getQuestions_stores_raw_counterexample :
    ((Quiz.create "p" "" "" 1).getQuestions
        (.response true ⟨0, [⟨"Which genre?", "Music", "Rock &amp; Roll", ["Jazz"]⟩]⟩)).1.questions
      = [⟨"Which genre?", "Music", "Rock &amp; Roll", ["Jazz"]⟩]
    ∧ "Rock &amp; Roll" ≠ "Rock & Roll"
    ∧ decodeHtml "Rock &amp; Roll" = "Rock & Roll" := by
  refine ⟨rfl, ?_, ?_⟩ <;> decide

/-- C4, amended.  The stored question sequence keeps the raw escaped fields;
decoding happens when a `Question` round is constructed from the current
record (question.js lines 21–27): every field of the constructed round is
the entity-decoded form of the corresponding raw field, and the decoder maps
the escape sequences `&amp;`, `&quot;`, `&#039;` to `&`, `"`, `'` as the
spec's examples require. -/
theorem question_fields_decoded (raw : RawQuestion) (js : Nat → Nat) :
    (mkQuestion raw js).question = decodeHtml raw.question
    ∧ (mkQuestion raw js).category = decodeHtml raw.category
    ∧ (mkQuestion raw js).correctAnswer = decodeHtml raw.correct_answer
    ∧ (mkQuestion raw js).wrongAnswers = raw.incorrect_answers.map decodeHtml
    ∧ decodeHtml "Rock &amp; Roll" = "Rock & Roll"
    ∧ decodeHtml "He said &quot;hi&quot;" = "He said \"hi\""
    ∧ decodeHtml "It&#039;s" = "It" ++ String.mk [Char.ofNat 39, 's'] := by
  refine ⟨rfl, rfl, rfl, rfl, ?_, ?_, ?_⟩ <;> decide

/-! ## Score percentage and the leaderboard (quiz.js lines 86–120)

`localStorage` is external: the persisted leaderboard is modelled as the
list it holds (for `saveHighScore` / `isHighScore` / `endQuiz`, which run on
well-formed data they wrote themselves) and, separately for `getHighScores`,
at the JSON level to cover absent/corrupt storage. -/

/-- `Quiz.getScorePercentage` (quiz.js lines 86–88):
`Math.round((score / numberOfQuestions) * 100)`, i.e. the exact rational
`100·score/n` rounded half-up, which is `⌊(200·score + n) / (2·n)⌋`.  (The
JS double evaluation agrees with the exact rational at every input used in
this development.) -/
def getScorePercentage (score numberOfQuestions : Nat) : Nat :=
  (200 * score + numberOfQuestions) / (2 * numberOfQuestions)

/-- A persisted leaderboard entry (quiz.js lines 102–109). -/
structure HighScoreEntry where
  name : String
  score : Nat
  total : Nat
  percentage : Int
  difficulty : String
  date : String
  deriving Repr, DecidableEq

/-- The `newScore` object `saveHighScore` builds from the session (quiz.js
lines 102–109); `date` stands for `new Date().toISOString()`. -/
def mkHighScoreEntry (q : Quiz) (date : String) : HighScoreEntry :=
  { name := q.playerName
    score := q.score
    total := q.numberOfQuestions
    percentage := (getScorePercentage q.score q.numberOfQuestions : Int)
    difficulty := q.difficulty
    date := date }

/-- Descending-by-percentage order used by the comparator
`(a, b) => b.percentage - a.percentage` (quiz.js line 112). -/
def percGE (a b : HighScoreEntry) : Prop :=
  b.percentage ≤ a.percentage

instance : DecidableRel percGE := fun a b => by
  unfold percGE
  infer_instance

/-- Stable insertion into a descending list: the new element goes before the
first strictly-smaller entry, hence after every earlier entry with an equal
percentage. -/
def insertDesc (e : HighScoreEntry) : List HighScoreEntry → List HighScoreEntry
  | [] => [e]
  | x :: xs =>
      if x.percentage ≤ e.percentage then e :: x :: xs else x :: insertDesc e xs

/-- Stable insertion sort, descending by percentage.
`Array.prototype.sort` is required to be stable by the ECMAScript spec and a
stable sort by a given key is unique, so this is extensionally the
`scores.sort((a, b) => b.percentage - a.percentage)` of quiz.js line 112. -/
def sortDesc : List HighScoreEntry → List HighScoreEntry
  | [] => []
  | x :: xs => insertDesc x (sortDesc xs)

/-- `Quiz.saveHighScore` (quiz.js lines 99–114) acting on the persisted
list: push the new entry, sort descending by percentage, keep the top 10 and
persist the result (the return value is what `localStorage` holds next). -/
def saveHighScore (stored : List HighScoreEntry) (newScore : HighScoreEntry) :
    List HighScoreEntry :=
  (sortDesc (stored ++ [newScore])).take 10

/-- `Quiz.isHighScore` (quiz.js lines 116–120): fewer than 10 stored entries
qualifies outright, otherwise the session percentage must strictly beat the
last stored entry (`scores[scores.length - 1]`). -/
def isHighScore (scores : List HighScoreEntry) (pct : Int) : Bool :=
  if h : scores.length < 10 then true
  else decide ((scores.getLast (List.length_pos.mp (by omega))).percentage < pct)

/-- `Quiz.endQuiz` (quiz.js lines 122–162) as a state transformer on the
persisted leaderboard: compute the percentage, save when the pre-insertion
`isHighScore()` says so, then render — the "New High Score!" badge is
decided by a second `isHighScore()` call (line 149) made after the save.
Returns (leaderboard after the call, whether the badge is shown). -/
def endQuiz (q : Quiz) (stored : List HighScoreEntry) (date : String) :
    List HighScoreEntry × Bool :=
  let percentage := getScorePercentage q.score q.numberOfQuestions
  let stored' :=
    if isHighScore stored (percentage : Int) then
      saveHighScore stored (mkHighScoreEntry q date)
    else stored
  (stored', isHighScore stored' (percentage : Int))

theorem insertDesc_perm (e : HighScoreEntry) (l : List HighScoreEntry) :
    (insertDesc e l).Perm (e :: l) := by
  induction l with
  | nil => exact List.Perm.refl _
  | cons x xs ih =>
      rw [insertDesc]
      by_cases hc : x.percentage ≤ e.percentage
      · rw [if_pos hc]
      · rw [if_neg hc]
        exact (ih.cons x).trans (List.Perm.swap e x xs)

theorem sortDesc_perm (l : List HighScoreEntry) : (sortDesc l).Perm l := by
  induction l with
  | nil => exact List.Perm.refl _
  | cons x xs ih =>
      exact (insertDesc_perm x (sortDesc xs)).trans (ih.cons x)

theorem insertDesc_sorted (e : HighScoreEntry) (l : List HighScoreEntry)
    (h : l.Pairwise percGE) : (insertDesc e l).Pairwise percGE := by
  induction l with
  | nil => simp [insertDesc, List.pairwise_cons]
  | cons x xs ih =>
      rw [insertDesc]
      rw [List.pairwise_cons] at h
      by_cases hc : x.percentage ≤ e.percentage
      · rw [if_pos hc, List.pairwise_cons]
        refine ⟨?_, List.pairwise_cons.mpr h⟩
        intro b hb
        rcases List.mem_cons.mp hb with rfl | hb
        · exact hc
        · exact le_trans (h.1 b hb) hc
      · rw [if_neg hc, List.pairwise_cons]
        refine ⟨?_, ih h.2⟩
        intro b hb
        rw [(insertDesc_perm e xs).mem_iff, List.mem_cons] at hb
        rcases hb with rfl | hb
        · unfold percGE
          omega
        · exact h.1 b hb

theorem sortDesc_sorted (l : List HighScoreEntry) :
    (sortDesc l).Pairwise percGE := by
  induction l with
  | nil => exact List.Pairwise.nil
  | cons x xs ih => exact insertDesc_sorted x (sortDesc xs) ih

theorem filter_insertDesc (e : HighScoreEntry) (l : List HighScoreEntry)
    (p : Int) :
    (insertDesc e l).filter (fun x => decide (x.percentage = p)) =
      (e :: l).filter (fun x => decide (x.percentage = p)) := by
  induction l with
  | nil => rfl
  | cons x xs ih =>
      rw [insertDesc]
      by_cases hc : x.percentage ≤ e.percentage
      · rw [if_pos hc]
      · rw [if_neg hc]
        by_cases hx : x.percentage = p <;> by_cases he : e.percentage = p
        · omega
        all_goals simp [List.filter_cons, hx, he, ih]

theorem sortDesc_stable (l : List HighScoreEntry) (p : Int) :
    (sortDesc l).filter (fun x => decide (x.percentage = p)) =
      l.filter (fun x => decide (x.percentage = p)) := by
  induction l with
  | nil => rfl
  | cons x xs ih =>
      rw [sortDesc, filter_insertDesc, List.filter_cons, List.filter_cons, ih]

/-- Entry with percentage 90 for the C5 example run. -/
def entryA : HighScoreEntry := ⟨"ava", 9, 10, 90, "easy", "d1"⟩

/-- First entry with percentage 70 for the C5 example run. -/
def entryB : HighScoreEntry := ⟨"ben", 7, 10, 70, "easy", "d2"⟩

/-- Entry with percentage 100 for the C5 example run. -/
def entryC : HighScoreEntry := ⟨"cam", 10, 10, 100, "easy", "d3"⟩

/-- Second entry with percentage 70 for the C5 example run. -/
def entryD : HighScoreEntry := ⟨"dee", 7, 10, 70, "easy", "d4"⟩

/-- C5.  For every prior persisted state and every new entry,
`saveHighScore` appends the entry, sorts descending by `percentage` with a
stable sort (the sorted list is a permutation of the appended list that is
pairwise descending and, key by key, keeps the insertion-relative order of
tied entries), truncates to at most 10 entries (dropping the tail, i.e. the
lowest percentages) and persists the result; inserting entries with
percentages [90, 70, 100, 70] into empty storage yields stored order
[100, 90, 70, 70] with the two 70s in insertion order. -/
theorem saveHighScore_spec (stored : List HighScoreEntry)
    (newScore : HighScoreEntry) :
    saveHighScore stored newScore = (sortDesc (stored ++ [newScore])).take 10
    ∧ (sortDesc (stored ++ [newScore])).Perm (stored ++ [newScore])
    ∧ (saveHighScore stored newScore).Pairwise percGE
    ∧ (∀ p : Int,
        (sortDesc (stored ++ [newScore])).filter (fun x => decide (x.percentage = p)) =
          (stored ++ [newScore]).filter (fun x => decide (x.percentage = p)))
    ∧ (saveHighScore stored newScore).length ≤ 10
    ∧ saveHighScore (saveHighScore (saveHighScore (saveHighScore [] entryA)
        entryB) entryC) entryD = [entryC, entryA, entryB, entryD] := by
  refine ⟨rfl, sortDesc_perm _, ?_, sortDesc_stable _, ?_, by decide⟩
  · exact (sortDesc_sorted _).sublist (List.take_sublist 10 _)
  · simp [saveHighScore]

/-- Under the persisted invariant (descending by percentage), the last
stored entry is the lowest-ranked one. -/
theorem getLast_is_lowest (scores : List HighScoreEntry)
    (hsorted : scores.Pairwise percGE) (h : scores ≠ []) :
    ∀ e ∈ scores, (scores.getLast h).percentage ≤ e.percentage := by
  induction scores with
  | nil => exact absurd rfl h
  | cons x xs ih =>
      intro e he
      rw [List.pairwise_cons] at hsorted
      rcases List.mem_cons.mp he with rfl | he
      · have hmem := List.getLast_mem h
        rcases List.mem_cons.mp hmem with heq | hmem'
        · rw [heq]
        · exact hsorted.1 _ hmem'
      · have hne : xs ≠ [] := List.ne_nil_of_mem he
        rw [List.getLast_cons hne]
        exact ih hsorted.2 hne e he

/-- C6.  `isHighScore` returns `true` iff the persisted leaderboard has
fewer than 10 entries or the session percentage strictly exceeds the last
stored entry's percentage (which, under the persisted descending-order
invariant, is the lowest-ranked entry by `getLast_is_lowest`); with fewer
than 10 stored entries it returns `true` for every percentage, including
0%. -/
theorem isHighScore_spec (scores : List HighScoreEntry) (pct : Int) :
    (isHighScore scores pct = true ↔
      (scores.length < 10 ∨
        ∃ h : scores ≠ [], (scores.getLast h).percentage < pct))
    ∧ (scores.length < 10 → isHighScore scores 0 = true) := by
  constructor
  · unfold isHighScore
    by_cases h : scores.length < 10
    · simp only [dif_pos h]
      simp [h]
    · simp only [dif_neg h]
      have hne : scores ≠ [] := List.length_pos.mp (by omega)
      simp only [decide_eq_true_eq]
      constructor
      · intro hlt
        exact Or.inr ⟨hne, hlt⟩
      · rintro (hlen | ⟨h', hlt⟩)
        · exact absurd hlen h
        · exact hlt
  · intro h
    unfold isHighScore
    simp [dif_pos h]

/-- Witness for C6: an empty leaderboard qualifies a 0% session. -/
theorem isHighScore_spec_witness : isHighScore [] 0 = true :=
  (isHighScore_spec [] 0).2 (by decide)

/-! ## Reading persisted state (quiz.js `getHighScores`, lines 90–97)

`JSON.parse` is the browser's; its outcome on the stored string is an
explicit input `parse`.  Absent storage makes `getItem` return `null`, and
`JSON.parse(null)` coerces the argument to the string `"null"` and succeeds
with the JSON null value, so the absent case is the parsed null value, not a
throw. -/

/-- A parsed JSON value, enough to model what `quizHighScores` can hold. -/
inductive JsonValue where
  | null
  | bool (b : Bool)
  | num (n : Int)
  | str (s : String)
  | arr (items : List JsonValue)
  | obj (fields : List (String × JsonValue))

/-- `Quiz.getHighScores` (quiz.js lines 90–97): parse the stored string,
keep the result only when `Array.isArray` holds, return `[]` otherwise; the
`try/catch` turns a parse throw into `[]` as well. -/
def getHighScores (stored : Option String)
    (parse : String → Except String JsonValue) : List JsonValue :=
  match (match stored with
         | none => Except.ok JsonValue.null
         | some s => parse s) with
  | .error _ => []
  | .ok (JsonValue.arr items) => items
  | .ok _ => []

/-- C7.  `getHighScores` is a total function — it never throws — and for
every persisted storage content it returns the empty sequence unless the
stored value parses as a JSON array, in which case it returns that array:
absent storage, a string `JSON.parse` rejects, and parsed non-array values
all yield `[]`. -/
theorem getHighScores_never_throws
    (parse : String → Except String JsonValue) :
    getHighScores none parse = []
    ∧ (∀ s msg, parse s = .error msg → getHighScores (some s) parse = [])
    ∧ (∀ s v, parse s = .ok v → (∀ items, v ≠ JsonValue.arr items) →
        getHighScores (some s) parse = [])
    ∧ (∀ s items, parse s = .ok (JsonValue.arr items) →
        getHighScores (some s) parse = items) := by
  refine ⟨rfl, ?_, ?_, ?_⟩
  · intro s msg hp
    simp [getHighScores, hp]
  · intro s v hp hv
    cases v with
    | arr items => exact absurd rfl (hv items)
    | _ => simp [getHighScores, hp]
  · intro s items hp
    simp [getHighScores, hp]

/-- Witness for C7: storage holding the string `"3"`, which parses as the
JSON number 3 — not a list — yields the empty leaderboard. -/
theorem getHighScores_never_throws_witness :
    getHighScores (some "3") (fun _ => Except.ok (JsonValue.num 3)) = [] :=
  (getHighScores_never_throws (fun _ => Except.ok (JsonValue.num 3))).2.2.1
    "3" (JsonValue.num 3) rfl
    (fun _items hcontra => JsonValue.noConfusion hcontra)

/-! ## Form validation and quiz start (src/js/index.js, lines 26–82) -/

/-- The `{isValid, error}` object `validateForm` returns. -/
structure ValidationResult where
  isValid : Bool
  error : Option String
  deriving Repr, DecidableEq

/-- `validateForm` (index.js lines 26–35) on the result of
`parseInt(questionsNumber.value)`, where `none` stands for `NaN`.  The
source guard `!numQuestions || numQuestions < 1` rejects `NaN`, `0` (both
falsy) and negatives with the same message, i.e. everything except
integers ≥ 1; `> 50` is rejected next. -/
def validateForm (numQuestions : Option Int) : ValidationResult :=
  match numQuestions with
  | none => ⟨false, some "Enter at least 1 question"⟩
  | some n =>
      if n < 1 then ⟨false, some "Enter at least 1 question"⟩
      else if n > 50 then ⟨false, some "Maximum 50 questions allowed"⟩
      else ⟨true, none⟩

/-- The synchronous prefix of `startQuiz` (index.js lines 52–64): validate
the form, and only when it is valid build the `Quiz` (empty name defaults
to `"Player"`).  `none` means the quiz was not started — `showFormError` was
called and the function returned before constructing a `Quiz`, hence before
any fetch. -/
def startQuiz (playerNameValue category difficulty : String)
    (questionsNumberValue : Option Int) : Option Quiz :=
  if (validateForm questionsNumberValue).isValid then
    match questionsNumberValue with
    | some n =>
        some (Quiz.create
          (if playerNameValue.trim = "" then "Player" else playerNameValue.trim)
          category difficulty n.toNat)
    | none => none
  else none

/-- C8.  Creation validates the question count: whenever
`parseInt(questionsNumber.value)` is `NaN` or outside `[1, 50]`, validation
fails with an error message (the spec's `ValidationError`) and `startQuiz`
returns before constructing a `Quiz` — no quiz, hence no fetch; whenever the
count is within `[1, 50]`, the produced session has empty `questions`,
`currentQuestionIndex = 0` and `score = 0`. -/
theorem create_validates (pn cat diff : String) (nv : Option Int) :
    (nv = none →
      (validateForm nv).isValid = false ∧ (validateForm nv).error ≠ none
        ∧ startQuiz pn cat diff nv = none)
    ∧ (∀ n : Int, nv = some n → (n < 1 ∨ 50 < n) →
      (validateForm nv).isValid = false ∧ (validateForm nv).error ≠ none
        ∧ startQuiz pn cat diff nv = none)
    ∧ (∀ n : Int, nv = some n → 1 ≤ n → n ≤ 50 →
      ∃ q : Quiz, startQuiz pn cat diff nv = some q
        ∧ q.questions = [] ∧ q.currentQuestionIndex = 0 ∧ q.score = 0
        ∧ q.numberOfQuestions = n.toNat) := by
  refine ⟨?_, ?_, ?_⟩
  · rintro rfl
    exact ⟨rfl, by simp [validateForm], rfl⟩
  · rintro n rfl hout
    have hval : validateForm (some n) =
        ⟨false, some "Enter at least 1 question"⟩
        ∨ validateForm (some n) =
        ⟨false, some "Maximum 50 questions allowed"⟩ := by
      rcases hout with h1 | h50
      · exact Or.inl (by simp [validateForm, h1])
      · refine Or.inr ?_
        have hn1 : ¬ n < 1 := by omega
        simp [validateForm, hn1, h50]
    rcases hval with hval | hval <;>
      simp [startQuiz, hval]
  · rintro n rfl h1 h50
    have hval : validateForm (some n) = ⟨true, none⟩ := by
      have hn1 : ¬ n < 1 := by omega
      have hn50 : ¬ n > 50 := by omega
      simp [validateForm, hn1, hn50]
    refine ⟨Quiz.create (if pn.trim = "" then "Player" else pn.trim)
        cat diff n.toNat, ?_, rfl, rfl, rfl, rfl⟩
    simp [startQuiz, hval]

/-- Witness for C8 at concrete inputs: count 0 is rejected with no quiz
started, count 10 yields a fresh session with empty questions, index 0,
score 0. -/
theorem create_validates_witness :
    startQuiz "" "9" "easy" (some 0) = none
    ∧ ∃ q : Quiz, startQuiz "ana" "9" "easy" (some 10) = some q
        ∧ q.questions = [] ∧ q.currentQuestionIndex = 0 ∧ q.score = 0
        ∧ q.numberOfQuestions = (10 : Int).toNat :=
  ⟨((create_validates "" "9" "easy" (some 0)).2.1 0 rfl
      (Or.inl (by decide))).2.2,
    (create_validates "ana" "9" "easy" (some 10)).2.2 10 rfl
      (by decide) (by decide)⟩

/-- C10.  In `endQuiz` the "New High Score!" badge is decided by a second
`isHighScore()` evaluation made after `saveHighScore` has persisted the new
entry, not by the pre-insertion decision that triggered the save; and there
is a concrete state exhibiting the gap: a pre-save board of 9 entries at
50% and a session scoring 1/2 (50%) — the entry is persisted (the board
grows to 10 and contains it) yet the rendered results omit the badge. -/
theorem endQuiz_badge_after_save (q : Quiz) (stored : List HighScoreEntry)
    (date : String) :
    ((endQuiz q stored date).2 = isHighScore (endQuiz q stored date).1
        ((getScorePercentage q.score q.numberOfQuestions : Nat) : Int))
    ∧ mkHighScoreEntry ⟨"new", "", "easy", 2, 1, [], 2⟩ "d" ∈
        (endQuiz ⟨"new", "", "easy", 2, 1, [], 2⟩
          (List.replicate 9 ⟨"old", 1, 2, 50, "easy", "d0"⟩) "d").1
    ∧ (endQuiz ⟨"new", "", "easy", 2, 1, [], 2⟩
          (List.replicate 9 ⟨"old", 1, 2, 50, "easy", "d0"⟩) "d").2 = false
    ∧ (endQuiz ⟨"new", "", "easy", 2, 1, [], 2⟩
          (List.replicate 9 ⟨"old", 1, 2, 50, "easy", "d0"⟩) "d").1 ≠
        List.replicate 9 ⟨"old", 1, 2, 50, "easy", "d0"⟩ := by
  refine ⟨rfl, ?_, ?_, ?_⟩ <;> decide

end QuizGame
